import Mathlib

/-!
Verification of the core logic of the inventory-scanner application
(`src/App.jsx`): value coercion, code normalization, column mapping,
CSV parsing strategy order, the barcode lookup index, the scan/diff
recorder, the CSV exports and the debounced persistence step.

JavaScript strings are modelled as Lean `String`/`List Char`; JavaScript
numbers are modelled as `JSNum` (a finite rational, `NaN`, or a signed
infinity); loosely-typed input values are modelled as `JSVal`.
-/

namespace InventoryScanner

/-- The JavaScript `\s` character class (also the set used by
`String.prototype.trim`): ASCII whitespace, NBSP, the Unicode space
separators, line/paragraph separators, and the BOM. -/
def jsWS (c : Char) : Bool :=
  (9 ≤ c.toNat && c.toNat ≤ 13) || c.toNat == 32 || c.toNat == 160 ||
  c.toNat == 5760 || (8192 ≤ c.toNat && c.toNat ≤ 8202) ||
  c.toNat == 8232 || c.toNat == 8233 || c.toNat == 8239 ||
  c.toNat == 8287 || c.toNat == 12288 || c.toNat == 65279

/-- The byte-order mark `﻿`, stripped by `replace(/﻿/g, "")`. -/
def isBOM (c : Char) : Bool := c.toNat == 65279

/-- The JavaScript `\w` character class: ASCII letters, digits, underscore. -/
def isWordChar (c : Char) : Bool :=
  (48 ≤ c.toNat && c.toNat ≤ 57) || (65 ≤ c.toNat && c.toNat ≤ 90) ||
  (97 ≤ c.toNat && c.toNat ≤ 122) || c.toNat == 95

/-- ASCII decimal digit (`\d`). -/
def isDigitChar (c : Char) : Bool := 48 ≤ c.toNat && c.toNat ≤ 57

/-- The characters kept by `normCode`'s final `replace(/[^\w-]/g, "")`:
word characters and the hyphen. -/
def isCodeChar (c : Char) : Bool := isWordChar c || c.toNat == 45

/-- `String.prototype.trim` on a character list: drop whitespace from
both ends. -/
def trimL (l : List Char) : List Char :=
  ((l.dropWhile jsWS).reverse.dropWhile jsWS).reverse

/-- `normCode` from `App.jsx` on a character list: strip the BOM, trim,
remove internal whitespace, and keep only letters/digits/underscore/hyphen. -/
def normCodeL (l : List Char) : List Char :=
  ((trimL (l.filter (fun c => !isBOM c))).filter (fun c => !jsWS c)).filter isCodeChar

/-- `normCode(v)`: normalize a barcode/string for matching. -/
def normCode (s : String) : String := ⟨normCodeL s.data⟩

/-- `replace(/^0+/, "")`: strip leading zeros. -/
def stripLeadingZeros (s : String) : String := ⟨s.data.dropWhile (fun c => c == '0')⟩

/-- The test `/^\d+$/.test(a)`: nonempty and entirely ASCII digits. -/
def isAllDigits (s : String) : Bool := !s.data.isEmpty && s.data.all isDigitChar

/-- `normVariants(v)` from `App.jsx`: the normalized code, plus — for a
purely numeric code — the form without leading zeros when that form is
nonempty and different. -/
def normVariants (v : String) : List String :=
  let a := normCode v
  if isAllDigits a then
    let b := stripLeadingZeros a
    if b ≠ "" ∧ b ≠ a then [a, b] else [a]
  else [a]

/-! ## Value coercion (`toNumber`) -/

/-- A JavaScript number: a finite value (modelled exactly as a rational),
`NaN`, or a signed infinity. -/
inductive JSNum where
  | finite (q : ℚ)
  | nan
  | posInf
  | negInf
deriving DecidableEq

/-- A loosely-typed JavaScript value as it arrives from a spreadsheet
cell: a number, a string, `null`, or `undefined` (absent). -/
inductive JSVal where
  | num (n : JSNum)
  | str (s : String)
  | nullV
  | undef
deriving DecidableEq

/-- `String(v ?? "")` for the non-number values: a string stays itself,
`null` and `undefined` coalesce to the empty string. -/
def jsStringOf : JSVal → String
  | .str s => s
  | _ => ""

/-- The numeric value of a list of ASCII digits, most significant first. -/
def digitsVal (l : List Char) : ℕ :=
  l.foldl (fun acc c => 10 * acc + (c.toNat - 48)) 0

/-- Splits an optional leading sign, returning the sign and the rest. -/
def splitSign : List Char → ℤ × List Char
  | '+' :: t => (1, t)
  | '-' :: t => (-1, t)
  | l => (1, l)

/-- JavaScript `parseFloat`: skip leading whitespace, read an optional
sign, then either the literal `Infinity` or a decimal mantissa
(`digits [. digits]`, at least one digit) and an optional well-formed
exponent (`e`/`E`, optional sign, at least one digit); trailing garbage is
ignored; `NaN` when no digit could be read.  The exact decimal value is
returned as a rational (built with integer arithmetic and `mkRat` so the
kernel can evaluate it). -/
def parseFloatJS (l : List Char) : JSNum :=
  let l1 := l.dropWhile jsWS
  let sr := splitSign l1
  if sr.2.take 8 = "Infinity".data then
    (if sr.1 = 1 then .posInf else .negInf)
  else
    let intPart := sr.2.takeWhile isDigitChar
    let rest1 := sr.2.dropWhile isDigitChar
    let fracRest : List Char × List Char :=
      match rest1 with
      | '.' :: t => (t.takeWhile isDigitChar, t.dropWhile isDigitChar)
      | _ => ([], rest1)
    if intPart.isEmpty && fracRest.1.isEmpty then .nan
    else
      let mant : ℤ :=
        sr.1 * ((digitsVal intPart : ℤ) * 10 ^ fracRest.1.length + (digitsVal fracRest.1 : ℤ))
      let expo : ℤ :=
        match fracRest.2 with
        | e :: t =>
          if e = 'e' ∨ e = 'E' then
            let es := splitSign t
            let eds := es.1 * (digitsVal (es.2.takeWhile isDigitChar) : ℤ)
            if (es.2.takeWhile isDigitChar).isEmpty then 0 else eds
          else 0
        | [] => 0
      .finite
        (if 0 ≤ expo then
          mkRat (mant * 10 ^ expo.toNat) (10 ^ fracRest.1.length)
        else
          mkRat mant (10 ^ fracRest.1.length * 10 ^ (-expo).toNat))

/-- `toNumber(v)` from `App.jsx`: a number is kept as-is when finite;
anything else is stringified (via `String(v ?? "")`), stripped of
whitespace and commas, and run through `parseFloat`; any non-finite
outcome becomes `0`. -/
def toNumber (v : JSVal) : ℚ :=
  match v with
  | .num n => match n with | .finite q => q | _ => 0
  | other =>
    let cleaned := (jsStringOf other).data.filter (fun c => !(jsWS c || c == ','))
    match parseFloatJS cleaned with
    | .finite q => q
    | _ => 0

/-! ## Column mapping (`mapColumns`) -/

/-- The header-normalization inside `mapColumns`: lower-case, strip the
BOM, remove parentheses, remove the `[\s_/|-]` characters, trim. -/
def normHeader (s : String) : String :=
  ⟨trimL ((((s.data.map Char.toLower).filter (fun c => !isBOM c)).filter
      (fun c => !(c == '(' || c == ')'))).filter
      (fun c => !(jsWS c || c == '_' || c == '/' || c == '|' || c == '-')))⟩

/-- Alias list for the `barcode` field. -/
def barcodeAliases : List String :=
  ["barcode", "bar code", "sku", "itemcode", "itemid", "productcode", "upc", "ean", "gtin", "code"]

/-- Alias list for the `name` field. -/
def nameAliases : List String :=
  ["name", "productname", "title", "item", "itemname", "description", "product", "producttitle"]

/-- Alias list for the `onHand` field. -/
def onHandAliases : List String :=
  ["onhand", "on hand", "onhandnew", "on hand new", "onhand(noteditable)",
   "onhandnew(noteditable)", "qtyonhand", "quantityonhand", "stock", "qty",
   "quantity", "available", "availableqty", "availablequantity",
   "available(noteditable)", "onhand(new)"]

/-- Alias list for the `reserved` field. -/
def reservedAliases : List String :=
  ["reserved", "allocated", "onhold", "on hold", "committed",
   "committed(noteditable)", "allocatedqty"]

/-- Does header `h` normalize to one of the normalized aliases? -/
def headerMatches (aliases : List String) (h : String) : Bool :=
  (aliases.map normHeader).contains (normHeader h)

/-- `find` inside `mapColumns`: the first header matching the alias list. -/
def findHeader (aliases : List String) (headers : List String) : Option String :=
  headers.find? (headerMatches aliases)

/-- The column mapping (`cols` object): a header name per logical field. -/
structure Cols where
  barcode : Option String
  name : Option String
  onHand : Option String
  reserved : Option String
deriving DecidableEq

/-- JavaScript falsiness of an optional string: `undefined` or `""`. -/
def isFalsyStr : Option String → Bool
  | none => true
  | some s => s == ""

/-- `mapColumns(headers)` from `App.jsx`: resolve the four fields by
alias matching, and return `null` when `barcode`, `name` or `onHand`
resolved to a falsy value. -/
def mapColumns (headers : List String) : Option Cols :=
  let cols : Cols :=
    { barcode := findHeader barcodeAliases headers
      name := findHeader nameAliases headers
      onHand := findHeader onHandAliases headers
      reserved := findHeader reservedAliases headers }
  if isFalsyStr cols.barcode || isFalsyStr cols.name || isFalsyStr cols.onHand then none
  else some cols

/-! ## CSV ingestion (`parseCSVSmart`) -/

/-- A parsed CSV row, as the object Papa Parse produces with
`header: true`: an ordered association of header name to cell text. -/
abbrev Row := List (String × String)

/-- The outcome object of `parseCSVSmart`. -/
structure ParseOutcome where
  rows : List Row
  headers : List String
  reason : Option String
  strategy : Option String
deriving DecidableEq

/-- The `sanitize` helper: strip every BOM character. -/
def sanitize (s : String) : String := ⟨s.data.filter (fun c => !isBOM c)⟩

/-- `!text || !text.trim()`: the text is empty or all whitespace. -/
def isBlankText (s : String) : Bool := s.data.all jsWS

/-- The five delimiter strategies, in the order `parseCSVSmart` tries
them. -/
def strategyNames : List String := ["auto", "comma", "tab", "semicolon", "pipe"]

/-- The external Papa Parse call, abstracted: given a strategy name and
the sanitized text it returns the parsed row list, or `none` when the
call throws (the `try`/`catch` in the source skips such a strategy). A
non-array `data` is modelled as `some []`, which the source also treats
as zero rows. -/
abbrev PapaOracle := String → String → Option (List Row)

/-- A parse attempt that yields no rows: it either threw or produced an
empty (or non-array) `data`. -/
def yieldsNoRows (o : Option (List Row)) : Prop := o = none ∨ o = some []

/-- The strategy loop of `parseCSVSmart`: the first strategy whose parse
does not throw and yields at least one row. -/
def tryStrategies (papa : PapaOracle) (text : String) : List String → Option (String × List Row)
  | [] => none
  | s :: rest =>
    match papa s text with
    | some (r :: rs) => some (s, r :: rs)
    | _ => tryStrategies papa text rest

/-- `split(/\r?\n/)[0]`: everything before the first newline, with an
immediately preceding carriage return removed. -/
def firstLine (l : List Char) : List Char :=
  let pre := l.takeWhile (fun c => c ≠ '\n')
  if pre.length < l.length then
    (if pre.getLast? = some '\r' then pre.dropLast else pre)
  else pre

/-- The diagnostic snippet: the first line of the sanitized text,
truncated to 200 characters. -/
def firstLineSnippet (text : String) : String :=
  ⟨(firstLine (sanitize text).data).take 200⟩

/-- The failure message of `parseCSVSmart` when every strategy fails. -/
def noRowsMsg (text : String) : String :=
  "No rows parsed. First line: \"" ++ firstLineSnippet text ++ "\""

/-- The success outcome: rows, headers from the first row's keys, no
reason, and the winning strategy's name. -/
def successOutcome (s : String) (rows : List Row) : ParseOutcome :=
  ⟨rows, (rows.head?.getD []).map Prod.fst, none, some s⟩

/-- `parseCSVSmart(text)` from `App.jsx`, parameterized by the external
parser: blank text short-circuits; otherwise the strategies are tried in
order on the sanitized text and the first that yields rows wins; when
none does, a structured failure with the first-line snippet is returned.
The function is total: a throwing strategy is caught and skipped. -/
def parseCSVSmart (papa : PapaOracle) (text : String) : ParseOutcome :=
  if isBlankText text then ⟨[], [], some "CSV text is empty", none⟩
  else
    match tryStrategies papa (sanitize text) strategyNames with
    | some (s, rows) => successOutcome s rows
    | none => ⟨[], [], some (noRowsMsg text), none⟩

/-! ## Lookup index -/

/-- `r[col]` followed by `String(raw ?? "")`: the cell under a header, or
the empty string when the row has no such key. -/
def cellOf (r : Row) (col : String) : String := (r.lookup col).getD ""

/-- Insert one row under all its nonempty normalized barcode variants
(`if (key) m.set(key, r)`). -/
def insertRow (m : String → Option Row) (col : String) (r : Row) : String → Option Row :=
  (normVariants (cellOf r col)).foldl
    (fun m k => if k ≠ "" then (fun q => if q = k then some r else m q) else m) m

/-- The lookup index of `App.jsx` (`useMemo` building a `Map`): every row
inserted in scan order, keyed by each nonempty normalized variant of its
barcode cell; modelled by its lookup function. -/
def buildIndex (col : String) (rows : List Row) : String → Option Row :=
  rows.foldl (fun m r => insertRow m col r) (fun _ => none)

/-- The row a lookup should return, stated independently of the `Map`:
the last row in scan order among those having `k` as a nonempty
normalized variant of their barcode cell. -/
def lastMatch (col : String) (rows : List Row) (k : String) : Option Row :=
  rows.foldl
    (fun acc r => if k ≠ "" ∧ k ∈ normVariants (cellOf r col) then some r else acc) none

/-! ## Scan/diff recorder and exports -/

/-- One recorded confirmation (`entry` object in `confirmQty`). -/
structure DiffEntry where
  barcode : String
  name : String
  prevOnHand : ℚ
  reserved : ℚ
  actual : ℚ
  delta : ℚ
  ts : String
deriving DecidableEq

/-- The `setDiffs` updater of `confirmQty`: drop every entry with the
same barcode, then prepend the new entry. -/
def upsertDiff (entry : DiffEntry) (d : List DiffEntry) : List DiffEntry :=
  entry :: d.filter (fun x => x.barcode ≠ entry.barcode)

/-- The entry `confirmQty` builds from the active item and the operator
input: the actual quantity is coerced, and the delta is
`toNumber(actual) - toNumber(prev)`. -/
def mkDiffEntry (barcode name : String) (prevOnHand reserved : ℚ)
    (actual : JSVal) (ts : String) : DiffEntry :=
  { barcode := barcode, name := name, prevOnHand := prevOnHand,
    reserved := reserved, actual := toNumber actual,
    delta := toNumber actual - toNumber (.num (.finite prevOnHand)), ts := ts }

/-- A cell of an export row: a string or a number. -/
inductive CellV where
  | s (v : String)
  | n (v : ℚ)
deriving DecidableEq

/-- The object literal both exports build from one diff entry; field
order is the column order Papa `unparse` derives. -/
def exportRowOf (d : DiffEntry) : List (String × CellV) :=
  [("Barcode", .s d.barcode), ("Name", .s d.name), ("Prev On Hand", .n d.prevOnHand),
   ("Reserved", .n d.reserved), ("Actual On Hand", .n d.actual), ("Delta", .n d.delta),
   ("Timestamp", .s d.ts)]

/-- The export column headers. -/
def exportColumns : List String :=
  ["Barcode", "Name", "Prev On Hand", "Reserved", "Actual On Hand", "Delta", "Timestamp"]

/-- The data rows of `exportDifferencesCSV`: entries with nonzero delta. -/
def exportDifferencesData (diffs : List DiffEntry) : List (List (String × CellV)) :=
  (diffs.filter (fun d => d.delta ≠ 0)).map exportRowOf

/-- The data rows of `exportAllScansCSV`: every entry. -/
def exportAllScansData (diffs : List DiffEntry) : List (List (String × CellV)) :=
  diffs.map exportRowOf

/-! ## Debounced persistence -/

/-- The state of the debounced auto-save effect: the serialized snapshot
last successfully acknowledged (`lastSavedRef.current`), the payload of
the scheduled timer not yet fired (if any), and the payloads of issued
`nfPutJSON` calls still awaiting completion (oldest first). -/
structure SaveState where
  lastSaved : String
  pending : Option String
  inFlight : List String

/-- The discrete events of the auto-save effect: an effect re-run after
an edit with the new serialized payload; a scheduled timer firing; the
completion (successful or failed) of the `i`-th in-flight write. -/
inductive SaveEvent where
  | edit (p : String)
  | fire
  | complete (i : ℕ) (ok : Bool)

/-- One step of the auto-save effect, returning the next state and the
payload of the write issued by the step, if any.  From the source: an
edit re-runs the effect, whose cleanup cancels the un-fired timer and
which schedules a new timer only when the payload differs from
`lastSavedRef.current` *at that moment*; a timer firing issues the
write (`await nfPutJSON`) and leaves it in flight; only when an
in-flight write completes successfully is `lastSavedRef.current` set to
its payload (a failed write leaves the snapshot unchanged). -/
def stepSave (st : SaveState) : SaveEvent → SaveState × Option String
  | .edit p =>
    ({ st with pending := if p = st.lastSaved then none else some p }, none)
  | .fire =>
    match st.pending with
    | none => (st, none)
    | some p => ({ st with pending := none, inFlight := st.inFlight ++ [p] }, some p)
  | .complete i ok =>
    match st.inFlight[i]? with
    | none => (st, none)
    | some w =>
      ({ st with
          inFlight := st.inFlight.eraseIdx i,
          lastSaved := if ok then w else st.lastSaved }, none)

/-- Run a sequence of events, collecting the issued writes in order. -/
def runSave (st : SaveState) (es : List SaveEvent) : SaveState × List String :=
  es.foldl (fun acc e =>
    ((stepSave acc.1 e).1, acc.2 ++ ((stepSave acc.1 e).2).toList)) (st, [])

/-! ## Helper lemmas -/

theorem isCodeChar_not_jsWS {c : Char} (h : isCodeChar c = true) : jsWS c = false := by
  cases hw : jsWS c with
  | false => rfl
  | true =>
    exfalso
    simp only [isCodeChar, isWordChar, Bool.or_eq_true, Bool.and_eq_true,
      decide_eq_true_eq, beq_iff_eq] at h
    simp only [jsWS, Bool.or_eq_true, Bool.and_eq_true, decide_eq_true_eq,
      beq_iff_eq] at hw
    omega

theorem isCodeChar_not_isBOM {c : Char} (h : isCodeChar c = true) : isBOM c = false := by
  cases hw : isBOM c with
  | false => rfl
  | true =>
    exfalso
    simp only [isCodeChar, isWordChar, Bool.or_eq_true, Bool.and_eq_true,
      decide_eq_true_eq, beq_iff_eq] at h
    simp only [isBOM, beq_iff_eq] at hw
    omega

theorem dropWhile_of_forall_false {p : Char → Bool} {l : List Char}
    (h : ∀ c ∈ l, p c = false) : l.dropWhile p = l := by
  cases l with
  | nil => rfl
  | cons a t => simp [List.dropWhile_cons, h a (by simp)]

theorem trimL_of_forall_false {l : List Char} (h : ∀ c ∈ l, jsWS c = false) :
    trimL l = l := by
  unfold trimL
  rw [dropWhile_of_forall_false h,
    dropWhile_of_forall_false (fun c hc => h c (List.mem_reverse.mp hc)),
    List.reverse_reverse]

theorem mem_normCodeL {c : Char} {l : List Char} (h : c ∈ normCodeL l) :
    isCodeChar c = true := by
  unfold normCodeL at h
  exact (List.mem_filter.mp h).2

theorem normCodeL_idem (l : List Char) : normCodeL (normCodeL l) = normCodeL l := by
  have hcode : ∀ c ∈ normCodeL l, isCodeChar c = true := fun c hc => mem_normCodeL hc
  have h1 : (normCodeL l).filter (fun c => !isBOM c) = normCodeL l :=
    List.filter_eq_self.mpr (fun c hc => by simp [isCodeChar_not_isBOM (hcode c hc)])
  have h2 : trimL (normCodeL l) = normCodeL l :=
    trimL_of_forall_false (fun c hc => isCodeChar_not_jsWS (hcode c hc))
  have h3 : (normCodeL l).filter (fun c => !jsWS c) = normCodeL l :=
    List.filter_eq_self.mpr (fun c hc => by simp [isCodeChar_not_jsWS (hcode c hc)])
  have h4 : (normCodeL l).filter isCodeChar = normCodeL l :=
    List.filter_eq_self.mpr hcode
  conv_lhs => rw [normCodeL]
  rw [h1, h2, h3, h4]

/-! ## Claim theorems -/

/-- C8: for every input `x`, `normCode` is idempotent:
`normCode(normCode(x)) == normCode(x)`. -/
theorem normCode_idempotent (x : String) : normCode (normCode x) = normCode x :=
  congrArg String.mk (normCodeL_idem x.data)

/-- C2: `toNumber` is total (it is a plain function into ℚ in this
embedding; every `try`-free path of the source is covered by the match):
a finite number is returned as-is, every non-finite number (NaN, ±∞ —
"the result is not a finite number") collapses to 0, a numeric-looking
string with whitespace and comma group separators is recovered
(`toNumber(" 1,200 ") == 1200`), and the empty string, garbage,
`Infinity`, `null` and absent input all give 0. -/
theorem toNumber_total_and_examples :
    (∀ q : ℚ, toNumber (.num (.finite q)) = q)
    ∧ toNumber (.num .nan) = 0
    ∧ toNumber (.num .posInf) = 0
    ∧ toNumber (.num .negInf) = 0
    ∧ toNumber (.str " 1,200 ") = 1200
    ∧ toNumber (.str "") = 0
    ∧ toNumber .nullV = 0
    ∧ toNumber .undef = 0
    ∧ toNumber (.str "garbage") = 0
    ∧ toNumber (.str "Infinity") = 0 :=
  ⟨fun _ => rfl, by decide, by decide, by decide, by decide, by decide, by decide,
    by decide, by decide, by decide⟩

theorem normVariants_shape (a : String) :
    (if isAllDigits a then
      if stripLeadingZeros a ≠ "" ∧ stripLeadingZeros a ≠ a then [a, stripLeadingZeros a]
      else [a]
    else [a]) =
    if a.data.all isDigitChar ∧ stripLeadingZeros a ≠ a ∧ stripLeadingZeros a ≠ "" then
      [a, stripLeadingZeros a]
    else [a] := by
  obtain ⟨la⟩ := a
  rcases la with _ | ⟨c, t⟩
  · have hs : stripLeadingZeros ⟨[]⟩ = ⟨[]⟩ := rfl
    simp [isAllDigits, hs]
  · by_cases hd : (c :: t).all isDigitChar
    · have hall : isAllDigits ⟨c :: t⟩ = true := by
        simp [isAllDigits, hd]
      by_cases h1 : stripLeadingZeros ⟨c :: t⟩ = ""
      · simp [hall, h1, hd]
      · by_cases h2 : stripLeadingZeros ⟨c :: t⟩ = ⟨c :: t⟩ <;> simp_all
    · have hfalse : (c :: t).all isDigitChar = false := by
        cases h : (c :: t).all isDigitChar
        · rfl
        · exact absurd h hd
      have hall : isAllDigits ⟨c :: t⟩ = false := by
        simp [isAllDigits, hfalse]
      simp [hall, hfalse]

/-- C3: `normVariants(v)` is `[normCode(v)]`, except that when the
normalized code is entirely digits and stripping its leading zeros both
changes it and leaves it nonempty, the stripped form is appended;
`normVariants("00012345") == ["00012345","12345"]` and
`normVariants("ABC-999") == ["ABC-999"]`. -/
theorem normVariants_characterization (v : String) :
    (normVariants v =
      if (normCode v).data.all isDigitChar
          ∧ stripLeadingZeros (normCode v) ≠ normCode v
          ∧ stripLeadingZeros (normCode v) ≠ "" then
        [normCode v, stripLeadingZeros (normCode v)]
      else [normCode v])
    ∧ normVariants "00012345" = ["00012345", "12345"]
    ∧ normVariants "ABC-999" = ["ABC-999"] :=
  ⟨normVariants_shape (normCode v), by decide, by decide⟩

theorem insertRow_empty_key (col : String) (r : Row) (m : String → Option Row) :
    insertRow m col r "" = m "" := by
  unfold insertRow
  generalize normVariants (cellOf r col) = ks
  induction ks generalizing m with
  | nil => rfl
  | cons k ks ih =>
    rw [List.foldl_cons, ih]
    by_cases hk : k = ""
    · simp [hk]
    · have hne : ("" : String) ≠ k := fun h => hk h.symm
      simp [hk, hne]

theorem buildIndex_empty_key (col : String) (rows : List Row) :
    buildIndex col rows "" = none := by
  unfold buildIndex
  have : ∀ (m : String → Option Row), m "" = none →
      (rows.foldl (fun m r => insertRow m col r) m) "" = none := by
    induction rows with
    | nil => intro m hm; exact hm
    | cons r rows ih =>
      intro m hm
      rw [List.foldl_cons]
      exact ih _ (by rw [insertRow_empty_key, hm])
  exact this _ rfl

/-- C10: the lookup index never keys the empty string: looking up `""`
resolves to no row — even when rows whose barcode cell normalizes to the
empty string exist — so every key actually present in the index is
nonempty. -/
theorem index_no_empty_key (col : String) (rows : List Row) :
    buildIndex col rows "" = none
    ∧ (∀ k, buildIndex col rows k ≠ none → k ≠ "") := by
  refine ⟨buildIndex_empty_key col rows, ?_⟩
  intro k hk hke
  exact hk (hke ▸ buildIndex_empty_key col rows)

theorem index_no_empty_key_witness : ("x" : String) ≠ "" :=
  (index_no_empty_key "Barcode" [[("Barcode", "x")], [("Barcode", "")]]).2 "x" (by decide)

theorem upsertDiff_barcode_nodup {e : DiffEntry} {d : List DiffEntry}
    (h : (d.map DiffEntry.barcode).Nodup) :
    ((upsertDiff e d).map DiffEntry.barcode).Nodup := by
  unfold upsertDiff
  rw [List.map_cons, List.nodup_cons]
  constructor
  · intro hmem
    obtain ⟨x, hx, hbx⟩ := List.mem_map.mp hmem
    have := (List.mem_filter.mp hx).2
    simp only [ne_eq, decide_not, Bool.not_eq_true', decide_eq_false_iff_not] at this
    exact this hbx
  · exact h.sublist (List.Sublist.map _ (List.filter_sublist d))

/-- C1: `confirmQty` upserts the new entry keyed by barcode: the updated
diff log keeps at most one entry per barcode (given the log had that
invariant, as every log reachable from the empty log by confirmations
does — last conjunct), the new entry is the first element, and every
other element is an entry of the old log whose barcode differs from the
new entry's. -/
theorem confirmQty_upsert (e : DiffEntry) (d : List DiffEntry)
    (h : (d.map DiffEntry.barcode).Nodup) :
    ((upsertDiff e d).map DiffEntry.barcode).Nodup
    ∧ (upsertDiff e d).head? = some e
    ∧ (∀ x ∈ upsertDiff e d, x = e ∨ (x ∈ d ∧ x.barcode ≠ e.barcode))
    ∧ (∀ es : List DiffEntry,
        ((es.foldl (fun acc x => upsertDiff x acc) []).map DiffEntry.barcode).Nodup) := by
  refine ⟨upsertDiff_barcode_nodup h, rfl, ?_, ?_⟩
  · intro x hx
    rcases List.mem_cons.mp hx with hxe | hxf
    · exact Or.inl hxe
    · refine Or.inr ⟨(List.mem_filter.mp hxf).1, ?_⟩
      have := (List.mem_filter.mp hxf).2
      simpa using this
  · intro es
    have : ∀ (es : List DiffEntry) (acc : List DiffEntry),
        (acc.map DiffEntry.barcode).Nodup →
        ((es.foldl (fun acc x => upsertDiff x acc) acc).map DiffEntry.barcode).Nodup := by
      intro es
      induction es with
      | nil => intro acc hacc; exact hacc
      | cons x es ih =>
        intro acc hacc
        rw [List.foldl_cons]
        exact ih _ (upsertDiff_barcode_nodup hacc)
    exact this es [] (by simp)

theorem confirmQty_upsert_witness :
    (upsertDiff ⟨"B1", "Item", 10, 0, 8, -2, "t1"⟩
        [⟨"B1", "Item", 10, 0, 9, -1, "t0"⟩, ⟨"B2", "Other", 5, 1, 5, 0, "t0"⟩]).head? =
      some ⟨"B1", "Item", 10, 0, 8, -2, "t1"⟩ :=
  (confirmQty_upsert _ _ (by decide)).2.1

theorem headerMatches_iff {aliases : List String} {h : String} :
    headerMatches aliases h = true ↔ normHeader h ∈ aliases.map normHeader := by
  simp [headerMatches]

theorem findHeader_not_some_empty {aliases headers : List String}
    (hne : ("" : String) ∉ aliases.map normHeader)
    (h : findHeader aliases headers = some "") : False := by
  have hp := List.find?_some h
  rw [headerMatches_iff] at hp
  exact hne hp

theorem isFalsyStr_findHeader_iff {aliases headers : List String}
    (hne : ("" : String) ∉ aliases.map normHeader) :
    isFalsyStr (findHeader aliases headers) = true ↔ findHeader aliases headers = none := by
  cases hf : findHeader aliases headers with
  | none => simp [isFalsyStr]
  | some h =>
    simp only [isFalsyStr, beq_iff_eq]
    constructor
    · intro he
      subst he
      exact absurd hf (fun hh => findHeader_not_some_empty hne hh)
    · intro he
      cases he

theorem findHeader_none_iff {aliases headers : List String} :
    findHeader aliases headers = none ↔
      ∀ h ∈ headers, normHeader h ∉ aliases.map normHeader := by
  unfold findHeader
  rw [List.find?_eq_none]
  constructor
  · intro hall h hh hmem
    exact hall h hh (headerMatches_iff.mpr hmem)
  · intro hall h hh hcontains
    exact hall h hh (headerMatches_iff.mp hcontains)

/-- C4: `mapColumns` returns `null` exactly when at least one of the
required fields `barcode`, `name`, `onHand` has no header whose
normalized form matches that field's alias list; the `reserved` field
does not appear in the condition, so an unmatched reserved field alone
never makes the mapping `null`. -/
theorem mapColumns_none_iff (headers : List String) :
    mapColumns headers = none ↔
      ((∀ h ∈ headers, normHeader h ∉ barcodeAliases.map normHeader)
       ∨ (∀ h ∈ headers, normHeader h ∉ nameAliases.map normHeader)
       ∨ (∀ h ∈ headers, normHeader h ∉ onHandAliases.map normHeader)) := by
  have hb : ("" : String) ∉ barcodeAliases.map normHeader := by decide
  have hn : ("" : String) ∉ nameAliases.map normHeader := by decide
  have ho : ("" : String) ∉ onHandAliases.map normHeader := by decide
  by_cases hcond : (isFalsyStr (findHeader barcodeAliases headers)
      || isFalsyStr (findHeader nameAliases headers)
      || isFalsyStr (findHeader onHandAliases headers)) = true
  · have hmap : mapColumns headers = none := by
      unfold mapColumns
      rw [if_pos hcond]
    rw [hmap]
    simp only [true_iff]
    rcases Bool.or_eq_true_iff.mp hcond with hbn | hoh
    · rcases Bool.or_eq_true_iff.mp hbn with hx | hx
      · exact Or.inl (findHeader_none_iff.mp ((isFalsyStr_findHeader_iff hb).mp hx))
      · exact Or.inr (Or.inl (findHeader_none_iff.mp ((isFalsyStr_findHeader_iff hn).mp hx)))
    · exact Or.inr (Or.inr (findHeader_none_iff.mp ((isFalsyStr_findHeader_iff ho).mp hoh)))
  · have hmap : mapColumns headers ≠ none := by
      unfold mapColumns
      rw [if_neg hcond]
      exact fun hx => by cases hx
    have hsplit := hcond
    rw [Bool.or_eq_true_iff, Bool.or_eq_true_iff] at hsplit
    push_neg at hsplit
    obtain ⟨⟨hfb, hfn⟩, hfo⟩ := hsplit
    constructor
    · intro hx
      exact absurd hx hmap
    · intro hcase
      exfalso
      rcases hcase with hc | hc | hc
      · exact hfb ((isFalsyStr_findHeader_iff hb).mpr (findHeader_none_iff.mpr hc))
      · exact hfn ((isFalsyStr_findHeader_iff hn).mpr (findHeader_none_iff.mpr hc))
      · exact hfo ((isFalsyStr_findHeader_iff ho).mpr (findHeader_none_iff.mpr hc))

theorem mapColumns_none_iff_witness : mapColumns ["productname", "stock"] = none :=
  (mapColumns_none_iff ["productname", "stock"]).mpr (Or.inl (by decide))

theorem insertRow_lookup (col : String) (r : Row) (m : String → Option Row) (k : String) :
    insertRow m col r k =
      if k ≠ "" ∧ k ∈ normVariants (cellOf r col) then some r else m k := by
  unfold insertRow
  generalize normVariants (cellOf r col) = ks
  induction ks generalizing m with
  | nil => simp
  | cons a ks ih =>
    rw [List.foldl_cons, ih]
    by_cases hk : k = ""
    · subst hk
      by_cases ha : a = ""
      · simp [ha]
      · have hne2 : ("" : String) ≠ a := fun hx => ha hx.symm
        simp [ha, hne2]
    · by_cases hka : k = a
      · subst hka
        simp [hk]
      · by_cases hkl : k ∈ ks
        · simp [hk, hkl]
        · by_cases ha : a = "" <;> simp [hk, hka, hkl, ha, Ne.symm hka]

theorem buildIndex_eq_lastMatch (col : String) (rows : List Row) (k : String) :
    buildIndex col rows k = lastMatch col rows k := by
  unfold buildIndex lastMatch
  have haux : ∀ (rows : List Row) (m : String → Option Row),
      (rows.foldl (fun m r => insertRow m col r) m) k =
        rows.foldl
          (fun acc r => if k ≠ "" ∧ k ∈ normVariants (cellOf r col) then some r else acc)
          (m k) := by
    intro rows
    induction rows with
    | nil => intro m; rfl
    | cons r rows ih =>
      intro m
      rw [List.foldl_cons, List.foldl_cons, ih, insertRow_lookup]
  exact haux rows _

theorem lastMatch_step_mem (col : String) (k : String) :
    ∀ (rows : List Row) (acc : Option Row) (r' : Row),
      (rows.foldl
        (fun acc r => if k ≠ "" ∧ k ∈ normVariants (cellOf r col) then some r else acc)
        acc) = some r' →
      acc = some r' ∨ (r' ∈ rows ∧ k ≠ "" ∧ k ∈ normVariants (cellOf r' col)) := by
  intro rows
  induction rows with
  | nil => intro acc r' h; exact Or.inl h
  | cons r rows ih =>
    intro acc r' h
    rw [List.foldl_cons] at h
    rcases ih _ _ h with hstep | hmem
    · by_cases hcond : k ≠ "" ∧ k ∈ normVariants (cellOf r col)
      · rw [if_pos hcond] at hstep
        injection hstep with he
        subst he
        exact Or.inr ⟨List.mem_cons_self _ _, hcond⟩
      · rw [if_neg hcond] at hstep
        exact Or.inl hstep
    · exact Or.inr ⟨List.mem_cons_of_mem _ hmem.1, hmem.2⟩

theorem lastMatch_isSome_of_mem (col : String) (k : String) :
    ∀ (rows : List Row) (acc : Option Row),
      ((∃ r ∈ rows, k ≠ "" ∧ k ∈ normVariants (cellOf r col)) ∨ acc ≠ none) →
      (rows.foldl
        (fun acc r => if k ≠ "" ∧ k ∈ normVariants (cellOf r col) then some r else acc)
        acc) ≠ none := by
  intro rows
  induction rows with
  | nil =>
    intro acc h
    rcases h with ⟨r, hr, _⟩ | hacc
    · cases hr
    · exact hacc
  | cons r rows ih =>
    intro acc h
    rw [List.foldl_cons]
    rcases h with ⟨r0, hr0, hcond0⟩ | hacc
    · rcases List.mem_cons.mp hr0 with he | htail
      · subst he
        refine ih _ (Or.inr ?_)
        rw [if_pos hcond0]
        exact fun hx => by cases hx
      · exact ih _ (Or.inl ⟨r0, htail, hcond0⟩)
    · refine ih _ (Or.inr ?_)
      by_cases hcond : k ≠ "" ∧ k ∈ normVariants (cellOf r col)
      · rw [if_pos hcond]
        exact fun hx => by cases hx
      · rw [if_neg hcond]
        exact hacc

/-- C6 is refuted on a row whose barcode cell normalizes to the empty
string: `""` is a normalized variant of the cell `"!!!"` of the sole
row, yet the index has no entry for it — so the index does not contain
an entry for *every* normalized variant of every row's barcode cell. -/
theorem index_missing_empty_variant_counterexample :
    "" ∈ normVariants (cellOf [("Barcode", "!!!")] "Barcode")
    ∧ [("Barcode", "!!!")] ∈ ([[("Barcode", "!!!")]] : List Row)
    ∧ buildIndex "Barcode" [[("Barcode", "!!!")]] "" = none := by
  refine ⟨by decide, by decide, by decide⟩

/-- C6 (amended): for every column mapping and row set, looking any key
up in the index gives the last row in scan order having that key among
the nonempty normalized variants of its barcode cell (last-writer-wins,
no uniqueness enforcement); an entry exists for every *nonempty*
normalized variant of every row's barcode cell, pointing at a source
row carrying that variant — a variant equal to the empty string is
skipped by the `if (key)` guard, so a row whose barcode cell normalizes
to the empty string contributes no entry. -/
theorem index_variants_last_writer_wins (col : String) (rows : List Row) :
    (∀ k, buildIndex col rows k = lastMatch col rows k)
    ∧ (∀ r ∈ rows, ∀ k ∈ normVariants (cellOf r col), k ≠ "" →
        ∃ r', buildIndex col rows k = some r' ∧ r' ∈ rows
          ∧ k ∈ normVariants (cellOf r' col)) := by
  refine ⟨fun k => buildIndex_eq_lastMatch col rows k, ?_⟩
  intro r hr k hk hne
  have hsome : lastMatch col rows k ≠ none :=
    lastMatch_isSome_of_mem col k rows none (Or.inl ⟨r, hr, hne, hk⟩)
  rcases hlm : lastMatch col rows k with _ | r'
  · exact absurd hlm hsome
  · rcases lastMatch_step_mem col k rows none r' hlm with hbad | hgood
    · cases hbad
    · exact ⟨r', (buildIndex_eq_lastMatch col rows k).trans hlm, hgood.1, hgood.2.2⟩

theorem index_variants_witness :
    ∃ r', buildIndex "Barcode" [[("Barcode", "00123")], [("Barcode", "123")]] "123" = some r'
      ∧ r' ∈ [[("Barcode", "00123")], [("Barcode", "123")]]
      ∧ "123" ∈ normVariants (cellOf r' "Barcode") :=
  (index_variants_last_writer_wins "Barcode" [[("Barcode", "00123")], [("Barcode", "123")]]).2
    [("Barcode", "00123")] (by decide) "123" (by decide) (by decide)

theorem exportRowOf_injective : Function.Injective exportRowOf := by
  intro a b h
  simp only [exportRowOf, List.cons.injEq, Prod.mk.injEq, CellV.s.injEq, CellV.n.injEq,
    and_true, true_and] at h
  obtain ⟨h1, h2, h3, h4, h5, h6, h7⟩ := h
  cases a
  cases b
  simp_all

/-- C7: the Differences export contains exactly the rows of the diff
entries with nonzero delta, the All-Scans export contains a row for
every entry regardless of delta, and every row of either export has the
columns `Barcode, Name, Prev On Hand, Reserved, Actual On Hand, Delta,
Timestamp` in that order. -/
theorem exports_differences_vs_all (diffs : List DiffEntry) :
    (∀ d ∈ diffs, (exportRowOf d ∈ exportDifferencesData diffs ↔ d.delta ≠ 0))
    ∧ (∀ row ∈ exportDifferencesData diffs,
        ∃ d ∈ diffs, d.delta ≠ 0 ∧ row = exportRowOf d)
    ∧ (∀ d ∈ diffs, exportRowOf d ∈ exportAllScansData diffs)
    ∧ (exportAllScansData diffs).length = diffs.length
    ∧ (∀ row ∈ exportDifferencesData diffs, row.map Prod.fst = exportColumns)
    ∧ (∀ row ∈ exportAllScansData diffs, row.map Prod.fst = exportColumns) := by
  refine ⟨?_, ?_, ?_, ?_, ?_, ?_⟩
  · intro d hd
    constructor
    · intro hmem
      obtain ⟨d', hd', heq⟩ := List.mem_map.mp hmem
      have hdd : d' = d := exportRowOf_injective heq
      subst hdd
      have := (List.mem_filter.mp hd').2
      simpa using this
    · intro hne
      exact List.mem_map_of_mem _ (List.mem_filter.mpr ⟨hd, by simpa using hne⟩)
  · intro row hrow
    obtain ⟨d, hd, heq⟩ := List.mem_map.mp hrow
    have hmf := List.mem_filter.mp hd
    exact ⟨d, hmf.1, by simpa using hmf.2, heq.symm⟩
  · intro d hd
    exact List.mem_map_of_mem _ hd
  · exact List.length_map _ _
  · intro row hrow
    obtain ⟨d, _, heq⟩ := List.mem_map.mp hrow
    subst heq
    rfl
  · intro row hrow
    obtain ⟨d, _, heq⟩ := List.mem_map.mp hrow
    subst heq
    rfl

theorem exports_differences_vs_all_witness :
    exportRowOf ⟨"B1", "Item", 10, 0, 8, -2, "t1"⟩ ∈
      exportDifferencesData [⟨"B1", "Item", 10, 0, 8, -2, "t1"⟩, ⟨"B2", "Other", 5, 1, 5, 0, "t0"⟩]
    ↔ (⟨"B1", "Item", 10, 0, 8, -2, "t1"⟩ : DiffEntry).delta ≠ 0 :=
  (exports_differences_vs_all
    [⟨"B1", "Item", 10, 0, 8, -2, "t1"⟩, ⟨"B2", "Other", 5, 1, 5, 0, "t0"⟩]).1
    ⟨"B1", "Item", 10, 0, 8, -2, "t1"⟩ (by simp)

theorem stepSave_edit_pending (st : SaveState) (q : String) :
    ((stepSave st (.edit q)).1).pending = if q = st.lastSaved then none else some q := rfl

theorem foldl_stepSave_edit_pending (ps : List String) (st : SaveState) (hne : ps ≠ []) :
    (ps.foldl (fun s q => (stepSave s (.edit q)).1) st).pending = none
    ∨ (ps.foldl (fun s q => (stepSave s (.edit q)).1) st).pending = ps.getLast? := by
  induction ps generalizing st with
  | nil => exact absurd rfl hne
  | cons q ps ih =>
    rw [List.foldl_cons]
    rcases ps with _ | ⟨q2, ps2⟩
    · simp only [List.foldl_nil, List.getLast?_singleton, stepSave_edit_pending]
      by_cases hq : q = st.lastSaved
      · rw [if_pos hq]
        exact Or.inl rfl
      · rw [if_neg hq]
        exact Or.inr rfl
    · rw [List.getLast?_cons_cons]
      exact ih _ (by simp)

/-- C9 is refuted by the asynchronous save lifecycle: starting from a
state whose acknowledged snapshot is `"P1"`, the trace Reset (payload
`"PE"`), timer fire (the write of `"PE"` is now in flight), confirm
(payload `"PC"`), Reset again (payload `"PE"`, scheduled because the
snapshot is still the stale `"P1"`), successful completion of the
in-flight write (snapshot becomes `"PE"`) leaves a timer pending with
`"PE"`; its fire issues an external write whose payload equals the last
successfully saved snapshot, which the claim says never happens. -/
theorem debounced_save_race_counterexample :
    ((runSave ⟨"P1", none, []⟩
        [SaveEvent.edit "PE", .fire, .edit "PC", .edit "PE", .complete 0 true]).1).lastSaved
      = "PE"
    ∧ (stepSave (runSave ⟨"P1", none, []⟩
        [SaveEvent.edit "PE", .fire, .edit "PC", .edit "PE", .complete 0 true]).1 .fire).2
      = some "PE" := by
  constructor
  · rfl
  · rfl

/-- C9 (amended): the debounce never *schedules* a write whose payload
equals the snapshot last acknowledged at scheduling time (such an edit
schedules nothing), an edit issues no write itself and cancels the
pending scheduled write (afterwards either nothing or exactly its own
payload is pending), a burst of edits with no intervening timer fire
leaves at most one scheduled write, carrying the payload of the final
state, a fire leaves no timer pending, and a fire only ever issues the
scheduled payload.  (Because the write is awaited and the snapshot is
updated only on completion, a write issued from a timer scheduled
against a stale snapshot may still equal the by-then acknowledged
snapshot — the race of the counterexample.) -/
theorem debounced_save_schedule_guard (st : SaveState) :
    (∀ q p, ((stepSave st (.edit q)).1).pending = some p → p = q ∧ p ≠ st.lastSaved)
    ∧ (∀ q, (stepSave st (.edit q)).2 = none)
    ∧ (∀ q, ((stepSave st (.edit q)).1).pending = none
        ∨ ((stepSave st (.edit q)).1).pending = some q)
    ∧ (∀ q, ((stepSave st (.edit q)).1).lastSaved = st.lastSaved)
    ∧ (∀ ps : List String, ps ≠ [] →
        (ps.foldl (fun s q => (stepSave s (.edit q)).1) st).pending = none
        ∨ (ps.foldl (fun s q => (stepSave s (.edit q)).1) st).pending = ps.getLast?)
    ∧ ((stepSave st .fire).1).pending = none
    ∧ (∀ p, (stepSave st .fire).2 = some p → st.pending = some p) := by
  refine ⟨?_, fun q => rfl, ?_, fun q => rfl,
    fun ps hne => foldl_stepSave_edit_pending ps st hne, ?_, ?_⟩
  · intro q p hp
    rw [stepSave_edit_pending] at hp
    by_cases hq : q = st.lastSaved
    · rw [if_pos hq] at hp
      cases hp
    · rw [if_neg hq] at hp
      simp only [Option.some.injEq] at hp
      subst hp
      exact ⟨rfl, hq⟩
  · intro q
    rw [stepSave_edit_pending]
    by_cases hq : q = st.lastSaved
    · rw [if_pos hq]
      exact Or.inl rfl
    · rw [if_neg hq]
      exact Or.inr rfl
  · cases hpend : st.pending with
    | none => simp [stepSave, hpend]
    | some p0 => simp [stepSave, hpend]
  · intro p hp
    cases hpend : st.pending with
    | none =>
      simp [stepSave, hpend] at hp
    | some p0 =>
      simp only [stepSave, hpend, Option.some.injEq] at hp
      rw [hp]

theorem debounced_save_schedule_guard_witness :
    ("B" : String) = "B" ∧ ("B" : String) ≠ "A" :=
  (debounced_save_schedule_guard ⟨"A", none, []⟩).1 "B" "B" (by decide)

theorem tryStrategies_none_iff (papa : PapaOracle) (txt : String) (ns : List String) :
    tryStrategies papa txt ns = none ↔ ∀ s ∈ ns, yieldsNoRows (papa s txt) := by
  induction ns with
  | nil => simp [tryStrategies]
  | cons a ns ih =>
    cases h : papa a txt with
    | none => simp [tryStrategies, h, ih, yieldsNoRows]
    | some rows =>
      cases rows with
      | nil => simp [tryStrategies, h, ih, yieldsNoRows]
      | cons r rs => simp [tryStrategies, h, yieldsNoRows]

theorem tryStrategies_some_first (papa : PapaOracle) (txt : String) :
    ∀ (ns : List String) (s : String) (rows : List Row),
      tryStrategies papa txt ns = some (s, rows) →
      ∃ pre post, ns = pre ++ s :: post
        ∧ (∀ a ∈ pre, yieldsNoRows (papa a txt))
        ∧ papa s txt = some rows ∧ rows ≠ [] := by
  intro ns
  induction ns with
  | nil =>
    intro s rows h
    simp [tryStrategies] at h
  | cons a ns ih =>
    intro s rows h
    cases hpa : papa a txt with
    | none =>
      rw [show tryStrategies papa txt (a :: ns) = tryStrategies papa txt ns by
        simp [tryStrategies, hpa]] at h
      obtain ⟨pre, post, hsplit, hpre, hs, hrows⟩ := ih s rows h
      exact ⟨a :: pre, post, by rw [hsplit]; rfl,
        fun b hb => by
          rcases List.mem_cons.mp hb with hba | hbp
          · subst hba; exact Or.inl hpa
          · exact hpre b hbp,
        hs, hrows⟩
    | some prows =>
      cases prows with
      | nil =>
        rw [show tryStrategies papa txt (a :: ns) = tryStrategies papa txt ns by
          simp [tryStrategies, hpa]] at h
        obtain ⟨pre, post, hsplit, hpre, hs, hrows⟩ := ih s rows h
        exact ⟨a :: pre, post, by rw [hsplit]; rfl,
          fun b hb => by
            rcases List.mem_cons.mp hb with hba | hbp
            · subst hba; exact Or.inr hpa
            · exact hpre b hbp,
          hs, hrows⟩
      | cons r rs =>
        rw [show tryStrategies papa txt (a :: ns) = some (a, r :: rs) by
          simp [tryStrategies, hpa]] at h
        simp only [Option.some.injEq, Prod.mk.injEq] at h
        obtain ⟨hsa, hrr⟩ := h
        subst hsa
        subst hrr
        exact ⟨[], ns, rfl, by simp, hpa, by simp⟩

theorem tryStrategies_of_first_success (papa : PapaOracle) (txt : String) :
    ∀ (pre : List String) (s : String) (post : List String) (rows : List Row),
      (∀ a ∈ pre, yieldsNoRows (papa a txt)) →
      papa s txt = some rows → rows ≠ [] →
      tryStrategies papa txt (pre ++ s :: post) = some (s, rows) := by
  intro pre
  induction pre with
  | nil =>
    intro s post rows hpre hs hne
    cases rows with
    | nil => exact absurd rfl hne
    | cons r rs => simp [tryStrategies, hs]
  | cons a pre ih =>
    intro s post rows hpre hs hne
    have ha := hpre a (by simp)
    rw [List.cons_append]
    rcases ha with ha | ha
    · rw [show tryStrategies papa txt (a :: (pre ++ s :: post))
          = tryStrategies papa txt (pre ++ s :: post) by simp [tryStrategies, ha]]
      exact ih s post rows (fun b hb => hpre b (by simp [hb])) hs hne
    · rw [show tryStrategies papa txt (a :: (pre ++ s :: post))
          = tryStrategies papa txt (pre ++ s :: post) by simp [tryStrategies, ha]]
      exact ih s post rows (fun b hb => hpre b (by simp [hb])) hs hne

/-- C5 (amended): `parseCSVSmart` never throws (every strategy's failure
is caught and skipped); blank input — empty or all-whitespace — returns
the fixed reason `"CSV text is empty"` without trying any strategy;
otherwise the strategies are tried in the fixed order auto, comma, tab,
semicolon, pipe, and the result is a success exactly for the first
strategy yielding at least one row, carrying its rows and their keys as
headers (both directions are stated: a success outcome comes from such a
first strategy, and whenever the strategies up to some `s` all fail and
`s` yields rows, that success is returned); when every strategy yields
no row the result is a structured failure whose diagnostic carries the
first 200 characters of the first line of the BOM-stripped input. -/
theorem parseCSVSmart_strategy_order (papa : PapaOracle) (text : String) :
    (isBlankText text = true →
      parseCSVSmart papa text = ⟨[], [], some "CSV text is empty", none⟩)
    ∧ (isBlankText text = false →
        (∀ s rows, parseCSVSmart papa text = successOutcome s rows →
          ∃ pre post, strategyNames = pre ++ s :: post
            ∧ (∀ a ∈ pre, yieldsNoRows (papa a (sanitize text)))
            ∧ papa s (sanitize text) = some rows ∧ rows ≠ [])
        ∧ (∀ pre s post rows, strategyNames = pre ++ s :: post →
            (∀ a ∈ pre, yieldsNoRows (papa a (sanitize text))) →
            papa s (sanitize text) = some rows → rows ≠ [] →
            parseCSVSmart papa text = successOutcome s rows)
        ∧ ((∀ s ∈ strategyNames, yieldsNoRows (papa s (sanitize text))) →
            parseCSVSmart papa text = ⟨[], [], some (noRowsMsg text), none⟩
            ∧ (firstLineSnippet text).data <:+: (noRowsMsg text).data)) := by
  constructor
  · intro hb
    unfold parseCSVSmart
    rw [if_pos hb]
  · intro hnb
    have hnb' : ¬ (isBlankText text = true) := by simp [hnb]
    refine ⟨?_, ?_, ?_⟩
    · intro s rows h
      unfold parseCSVSmart at h
      rw [if_neg hnb'] at h
      cases htry : tryStrategies papa (sanitize text) strategyNames with
      | none =>
        rw [htry] at h
        exfalso
        have hst := congrArg ParseOutcome.strategy h
        simp [successOutcome] at hst
      | some pr =>
        obtain ⟨s', rows'⟩ := pr
        rw [htry] at h
        have hst := congrArg ParseOutcome.strategy h
        have hrw := congrArg ParseOutcome.rows h
        simp only [successOutcome, Option.some.injEq] at hst hrw
        subst hst
        subst hrw
        exact tryStrategies_some_first papa (sanitize text) strategyNames s' rows' htry
    · intro pre s post rows hsplit hpre hs hne
      unfold parseCSVSmart
      rw [if_neg hnb', hsplit,
        tryStrategies_of_first_success papa (sanitize text) pre s post rows hpre hs hne]
    · intro hall
      have hnone : tryStrategies papa (sanitize text) strategyNames = none :=
        (tryStrategies_none_iff papa (sanitize text) strategyNames).mpr hall
      constructor
      · unfold parseCSVSmart
        rw [if_neg hnb', hnone]
      · refine ⟨"No rows parsed. First line: \"".data, "\"".data, ?_⟩
        simp [noRowsMsg, String.data_append]

/-- C5 as frozen is false: on the all-whitespace input `"  "` no
strategy yields a row (none is even tried), yet the returned structured
failure's diagnostic is the fixed string `"CSV text is empty"`, which
does not carry the first ~200 characters (here `"  "`) of the input's
first line. -/
theorem parseCSVSmart_blank_counterexample :
    (∀ s ∈ strategyNames, yieldsNoRows ((fun _ _ => (none : Option (List Row))) s (sanitize "  ")))
    ∧ parseCSVSmart (fun _ _ => none) "  " = ⟨[], [], some "CSV text is empty", none⟩
    ∧ firstLineSnippet "  " = "  "
    ∧ ¬ (firstLineSnippet "  ").data <:+: ("CSV text is empty" : String).data := by
  refine ⟨?_, by decide, by decide, by decide⟩
  intro s _
  exact Or.inl rfl

theorem parseCSVSmart_strategy_order_witness :
    parseCSVSmart (fun _ _ => some [[("A", "1")]]) "x"
      = successOutcome "auto" [[("A", "1")]]
    ∧ parseCSVSmart (fun _ _ => none) "x" = ⟨[], [], some (noRowsMsg "x"), none⟩ :=
  ⟨((parseCSVSmart_strategy_order (fun _ _ => some [[("A", "1")]]) "x").2
      (by decide)).2.1
      [] "auto" ["comma", "tab", "semicolon", "pipe"] [[("A", "1")]]
      rfl (by simp) rfl (by simp),
   (((parseCSVSmart_strategy_order (fun _ _ => none) "x").2 (by decide)).2.2
      (fun _ _ => Or.inl rfl)).1⟩

end InventoryScanner
